import Mathlib

/-!
Verification of the go-xls BIFF8/CFB writer.

Shallow embedding of the writer's code: bytes are `Nat` values below 256,
byte buffers are `List Nat`.  Multi-byte integer stores
(`binary.LittleEndian.PutUint16/32/64` after a Go integer cast) are modelled
by the `u16le`/`u32le`/`u64le` encoders, whose per-byte `/ 2^k % 256`
arithmetic is exactly the little-endian image of the cast's value.
-/

/-- Little-endian bytes of `uint16(n)`: the Go cast keeps the low 16 bits. -/
def u16le (n : Nat) : List Nat := [n % 256, n / 256 % 256]

/-- Little-endian bytes of `uint32(n)`. -/
def u32le (n : Nat) : List Nat :=
  [n % 256, n / 256 % 256, n / 65536 % 256, n / 16777216 % 256]

/-- Little-endian bytes of `uint64(n)`. -/
def u64le (n : Nat) : List Nat := u32le n ++ u32le (n / 4294967296)

/-- Read back a little-endian u16 stored at byte index `i` (0 past the end). -/
def decodeU16 (l : List Nat) (i : Nat) : Nat := l.getD i 0 + 256 * l.getD (i + 1) 0

/-- Read back a little-endian u32 stored at byte index `i` (0 past the end). -/
def decodeU32 (l : List Nat) (i : Nat) : Nat :=
  l.getD i 0 + 256 * l.getD (i + 1) 0 + 65536 * l.getD (i + 2) 0 +
    16777216 * l.getD (i + 3) 0

theorem u16le_length (n : Nat) : (u16le n).length = 2 := rfl

theorem u32le_length (n : Nat) : (u32le n).length = 4 := rfl

theorem u64le_length (n : Nat) : (u64le n).length = 8 := rfl

theorem decodeU16_u16le (n : Nat) (rest : List Nat) :
    decodeU16 (u16le n ++ rest) 0 = n % 65536 := by
  simp only [u16le, decodeU16, List.cons_append, List.getD_cons_zero,
    List.getD_cons_succ]
  omega

theorem decodeU32_u32le (n : Nat) (rest : List Nat) :
    decodeU32 (u32le n ++ rest) 0 = n % 4294967296 := by
  simp only [u32le, decodeU32, List.cons_append, List.getD_cons_zero,
    List.getD_cons_succ]
  omega

theorem decodeU16_cons4 (a b c d : Nat) (l : List Nat) (i : Nat) :
    decodeU16 (a :: b :: c :: d :: l) (i + 4) = decodeU16 l i := by
  simp only [decodeU16]
  have h1 : i + 4 = (((i + 1) + 1) + 1) + 1 := by omega
  have h2 : i + 4 + 1 = ((((i + 1) + 1) + 1) + 1) + 1 := by omega
  rw [h1, h2]
  simp [List.getD_cons_succ]

theorem decodeU32_cons4 (a b c d : Nat) (l : List Nat) (i : Nat) :
    decodeU32 (a :: b :: c :: d :: l) (i + 4) = decodeU32 l i := by
  simp only [decodeU32]
  have h1 : i + 4 = (((i + 1) + 1) + 1) + 1 := by omega
  have h2 : i + 4 + 1 = ((((i + 1) + 1) + 1) + 1) + 1 := by omega
  have h3 : i + 4 + 2 = (((((i + 1) + 1) + 1) + 1) + 1) + 1 := by omega
  have h4 : i + 4 + 3 = ((((((i + 1) + 1) + 1) + 1) + 1) + 1) + 1 := by omega
  rw [h1, h2, h3, h4]
  simp [List.getD_cons_succ]

/-! ## The record emitter (`writeRecord`)

Go source: `func (w *Writer) writeRecord(writer io.Writer, recType uint16,
data []byte) error` writes a 4-byte header `type (LE u16) || uint16(len(data))
(LE u16)` and then the payload bytes. -/

/-- `writeRecord`: record type, payload length (truncated to u16 by the Go
cast `uint16(len(data))`), payload. -/
def writeRecord (recType : Nat) (data : List Nat) : List Nat :=
  u16le recType ++ u16le data.length ++ data

theorem writeRecord_length (t : Nat) (d : List Nat) :
    (writeRecord t d).length = 4 + d.length := by
  simp [writeRecord, u16le]
  omega

theorem writeRecord_type_field (t : Nat) (d : List Nat) :
    decodeU16 (writeRecord t d) 0 = t % 65536 := by
  simp only [writeRecord, List.append_assoc]
  exact decodeU16_u16le t _

theorem writeRecord_length_field (t : Nat) (d : List Nat) :
    decodeU16 (writeRecord t d) 2 = d.length % 65536 := by
  simp only [writeRecord, u16le, List.cons_append, List.nil_append]
  show decodeU16 (_ :: _ :: (u16le d.length ++ d)) (0 + 2) = _
  simp only [decodeU16]
  simp only [show ∀ j : Nat, 0 + 2 + j = (j + 1) + 1 from fun j => by omega]
  simp only [List.getD_cons_succ]
  have := decodeU16_u16le d.length d
  simpa [decodeU16] using this

theorem writeRecord_payload (t : Nat) (d : List Nat) :
    (writeRecord t d).drop 4 = d := by
  simp [writeRecord, u16le]

/-! ## Shared String Table

Go source: `type sharedStringTable struct { strings []string;
stringMap map[string]int; uniqueCount int; totalCount int }`.
The Go map is modelled as an association list (`lookupMap` is the map read;
a missing key yields the zero value through `Option.getD _ 0` in
`getIndex`, exactly as a Go map read of a missing key yields 0). -/

structure SharedStringTable where
  strings : List String
  stringMap : List (String × Nat)
  uniqueCount : Nat
  totalCount : Nat
deriving DecidableEq

/-- `newSST`. -/
def newSST : SharedStringTable := ⟨[], [], 0, 0⟩

/-- Association-list read of the modelled Go map. -/
def lookupMap : List (String × Nat) → String → Option Nat
  | [], _ => none
  | (k, v) :: rest, s => if k = s then some v else lookupMap rest s

/-- `addString`: bump `totalCount`; if the string is new, record
`uniqueCount` as its index, append it to `strings`, bump `uniqueCount`. -/
def addString (t : SharedStringTable) (s : String) : SharedStringTable :=
  match lookupMap t.stringMap s with
  | some _ => { t with totalCount := t.totalCount + 1 }
  | none =>
      { strings := t.strings ++ [s]
        stringMap := t.stringMap ++ [(s, t.uniqueCount)]
        uniqueCount := t.uniqueCount + 1
        totalCount := t.totalCount + 1 }

/-- `getIndex`: Go map read, zero value when absent. -/
def getIndex (t : SharedStringTable) (s : String) : Nat :=
  (lookupMap t.stringMap s).getD 0

/-- A fresh table after a sequence of `addString` calls. -/
def addAll (l : List String) : SharedStringTable := l.foldl addString newSST

/-- The association list pairing each element of `l` with its position,
starting at `k`. -/
def mapOfList : List String → Nat → List (String × Nat)
  | [], _ => []
  | s :: rest, k => (s, k) :: mapOfList rest (k + 1)

theorem mapOfList_length (l : List String) (k : Nat) :
    (mapOfList l k).length = l.length := by
  induction l generalizing k with
  | nil => rfl
  | cons a l ih => simp [mapOfList, ih]

theorem mapOfList_append (l₁ l₂ : List String) (k : Nat) :
    mapOfList (l₁ ++ l₂) k = mapOfList l₁ k ++ mapOfList l₂ (k + l₁.length) := by
  induction l₁ generalizing k with
  | nil => simp [mapOfList]
  | cons a l ih => simp [mapOfList, ih]; ring_nf

theorem lookupMap_append_some {m₁ : List (String × Nat)} {s : String} {i : Nat}
    (m₂ : List (String × Nat)) (h : lookupMap m₁ s = some i) :
    lookupMap (m₁ ++ m₂) s = some i := by
  induction m₁ with
  | nil => simp [lookupMap] at h
  | cons p m ih =>
      obtain ⟨k, v⟩ := p
      by_cases hk : k = s
      · simp [lookupMap, hk] at h ⊢; exact h
      · simp [lookupMap, hk] at h ⊢; exact ih h

theorem lookupMap_append_none {m₁ : List (String × Nat)} {s : String}
    (m₂ : List (String × Nat)) (h : lookupMap m₁ s = none) :
    lookupMap (m₁ ++ m₂) s = lookupMap m₂ s := by
  induction m₁ with
  | nil => simp
  | cons p m ih =>
      obtain ⟨k, v⟩ := p
      by_cases hk : k = s
      · simp [lookupMap, hk] at h
      · simp [lookupMap, hk] at h ⊢; exact ih h

/-- An existing binding is never changed by a later `addString`. -/
theorem addString_preserves {t : SharedStringTable} {s : String} {i : Nat}
    (s' : String) (h : lookupMap t.stringMap s = some i) :
    lookupMap (addString t s').stringMap s = some i := by
  unfold addString
  cases hl : lookupMap t.stringMap s' with
  | some j => simpa using h
  | none => exact lookupMap_append_some _ h

theorem foldl_addString_preserves {t : SharedStringTable} {s : String} {i : Nat}
    (l : List String) (h : lookupMap t.stringMap s = some i) :
    lookupMap (l.foldl addString t).stringMap s = some i := by
  induction l generalizing t with
  | nil => exact h
  | cons a l ih => exact ih (addString_preserves a h)

/-- The structural invariant maintained by `addString`. -/
def SSTInv (t : SharedStringTable) : Prop :=
  t.stringMap = mapOfList t.strings 0 ∧
  t.uniqueCount = t.strings.length ∧
  t.strings.length ≤ t.totalCount

theorem sstInv_new : SSTInv newSST := ⟨rfl, rfl, Nat.le_refl 0⟩

theorem sstInv_addString {t : SharedStringTable} (hInv : SSTInv t)
    (s : String) : SSTInv (addString t s) := by
  obtain ⟨hm, hu, ht⟩ := hInv
  unfold addString
  cases hl : lookupMap t.stringMap s with
  | some j => exact ⟨hm, hu, by simpa using Nat.le_succ_of_le ht⟩
  | none =>
      refine ⟨?_, ?_, ?_⟩
      · show t.stringMap ++ [(s, t.uniqueCount)] = mapOfList (t.strings ++ [s]) 0
        rw [mapOfList_append, hm, hu]
        simp [mapOfList]
      · simp [hu]
      · simp; omega

theorem sstInv_foldl {t : SharedStringTable} (hInv : SSTInv t)
    (l : List String) : SSTInv (l.foldl addString t) := by
  induction l generalizing t with
  | nil => exact hInv
  | cons a l ih => exact ih (sstInv_addString hInv a)

theorem sstInv_addAll (l : List String) : SSTInv (addAll l) :=
  sstInv_foldl sstInv_new l

/-- First-match lookup of the position map finds the first occurrence. -/
theorem lookupMap_mapOfList {l : List String} {s : String} (k : Nat)
    (h : s ∈ l) : lookupMap (mapOfList l k) s = some (l.indexOf s + k) := by
  induction l generalizing k with
  | nil => cases h
  | cons a l ih =>
      by_cases ha : a = s
      · subst ha
        simp [mapOfList, lookupMap, List.indexOf_cons_self]
      · have hmem : s ∈ l := by
          cases h with
          | head => exact absurd rfl ha
          | tail _ h' => exact h'
        rw [List.indexOf_cons_ne _ ha]
        simp only [mapOfList, lookupMap, if_neg ha]
        rw [ih (k + 1) hmem]
        congr 1
        omega

/-- Absent keys stay absent: `addString`/folds only bind strings actually
added. -/
theorem lookupMap_foldl_none {t : SharedStringTable} {s : String}
    (l : List String) (hn : lookupMap t.stringMap s = none) (hl : s ∉ l) :
    lookupMap (l.foldl addString t).stringMap s = none := by
  induction l generalizing t with
  | nil => exact hn
  | cons a l ih =>
      have hna : s ∉ l := fun h => hl (List.mem_cons_of_mem _ h)
      have hne : a ≠ s := fun h => hl (h ▸ List.mem_cons_self a l)
      refine ih ?_ hna
      unfold addString
      cases hb : lookupMap t.stringMap a with
      | some j => simpa using hn
      | none =>
          show lookupMap (t.stringMap ++ [(a, t.uniqueCount)]) s = none
          rw [lookupMap_append_none _ hn]
          simp [lookupMap, hne]

/-- Every string in the table was added by some `addString` call. -/
theorem mem_strings_foldl {t : SharedStringTable} {s : String}
    (l : List String) (h : s ∈ (l.foldl addString t).strings) :
    s ∈ t.strings ∨ s ∈ l := by
  induction l generalizing t with
  | nil => exact Or.inl h
  | cons a l ih =>
      rcases ih h with h' | h'
      · unfold addString at h'
        cases hb : lookupMap t.stringMap a with
        | some j =>
            rw [hb] at h'
            exact Or.inl h'
        | none =>
            rw [hb] at h'
            simp only at h'
            rcases List.mem_append.mp h' with h'' | h''
            · exact Or.inl h''
            · simp at h''
              exact Or.inr (h'' ▸ List.mem_cons_self a l)
      · exact Or.inr (List.mem_cons_of_mem _ h')

/-! ## Cell values and tables

Go cells are `interface{}`.  The dispatch in `writeCell` distinguishes:
`string`; all signed/unsigned integer kinds and both float kinds (each
widened by the host to `float64` — the widened value's IEEE-754 bit
pattern is carried here as `num bits`, since the program only ever stores
those 8 bytes); `bool`; and a default arm that applies the host formatter
`fmt.Sprintf("%v", v)` — the resulting text is carried as `other s`. -/

inductive CellValue where
  | str (s : String)
  | num (bits : Nat)
  | boolean (b : Bool)
  | other (formatted : String)
deriving DecidableEq

abbrev Row := List CellValue
abbrev Table := List Row

/-- The string held by a text cell (`cell.(string)` type assertion). -/
def cellText : CellValue → Option String
  | .str s => some s
  | _ => none

/-- All text-cell strings of a table, in walk order. -/
def textStrings : Table → List String
  | [] => []
  | row :: rest => row.filterMap cellText ++ textStrings rest

/-- One step of the SST pre-walk in `writeBIFF8`. -/
def addCell (t : SharedStringTable) (c : CellValue) : SharedStringTable :=
  match c with
  | .str s => addString t s
  | _ => t

/-- The SST pre-walk in `writeBIFF8`: every text cell is added. -/
def buildSST (data : Table) : SharedStringTable :=
  data.foldl (fun t row => row.foldl addCell t) newSST

theorem foldl_addCell_eq (row : Row) (t : SharedStringTable) :
    row.foldl addCell t = (row.filterMap cellText).foldl addString t := by
  induction row generalizing t with
  | nil => rfl
  | cons c row ih =>
      cases c with
      | str s => simp [addCell, cellText, ih]
      | num b => simp [addCell, cellText, ih]
      | boolean b => simp [addCell, cellText, ih]
      | other s => simp [addCell, cellText, ih]

theorem buildSST_eq (data : Table) :
    buildSST data = (textStrings data).foldl addString newSST := by
  suffices h : ∀ (d : Table) (t : SharedStringTable),
      d.foldl (fun t row => row.foldl addCell t) t =
        (textStrings d).foldl addString t by
    exact h data newSST
  intro d
  induction d with
  | nil => intro t; rfl
  | cons row rest ih =>
      intro t
      simp only [List.foldl_cons, textStrings, List.foldl_append]
      rw [foldl_addCell_eq, ih]

/-! ## String encoders

`stringToUTF16LE` (cfb.go) iterates the runes and stores `uint16(r)` for
each — two bytes per code point, the low 16 bits of the code point.

`encodeString`/`encodeStringForSST` instead run the `golang.org/x/text`
UTF-16LE encoder, which emits standard UTF-16: one code unit for BMP code
points and a surrogate pair for supplementary-plane code points.
`utf16CodeUnits` models that library encoder. -/

/-- `stringToUTF16LE`: `uint16(r)` per rune — truncating, two bytes each. -/
def stringToUTF16LE (s : String) : List Nat :=
  s.data.foldr (fun c acc => u16le c.toNat ++ acc) []

/-- Standard UTF-16LE code-unit bytes of one scalar value (model of the
`x/text` UTF-16 encoder used by `encodeString`/`encodeStringForSST`). -/
def utf16CodeUnits (c : Char) : List Nat :=
  if c.toNat < 65536 then u16le c.toNat
  else u16le (55296 + (c.toNat - 65536) / 1024) ++
       u16le (56320 + (c.toNat - 65536) % 1024)

/-- UTF-16LE bytes of a whole string via the `x/text` encoder. -/
def utf16Encode (s : String) : List Nat :=
  s.data.foldr (fun c acc => utf16CodeUnits c ++ acc) []

/-- `encodeString`: `[u8 char_count][0x01][0x00]` then UTF-16LE bytes
(char count is `byte(len([]rune(s)))`). -/
def encodeString (s : String) : List Nat :=
  [s.data.length % 256, 1, 0] ++ utf16Encode s

/-- `encodeStringForSST`: `[u16 char_count][0x01]` then UTF-16LE bytes. -/
def encodeStringForSST (s : String) : List Nat :=
  u16le s.data.length ++ [1] ++ utf16Encode s

theorem stringToUTF16LE_length (s : String) :
    (stringToUTF16LE s).length = 2 * s.data.length := by
  unfold stringToUTF16LE
  induction s.data with
  | nil => rfl
  | cons c l ih =>
      simp only [List.foldr_cons, List.length_append, List.length_cons,
        u16le_length, ih]
      omega

theorem stringToUTF16LE_cons (c : Char) (l : List Char) :
    stringToUTF16LE (String.mk (c :: l)) =
      u16le c.toNat ++ stringToUTF16LE (String.mk l) := rfl

theorem utf16Encode_cons (c : Char) (l : List Char) :
    utf16Encode (String.mk (c :: l)) =
      utf16CodeUnits c ++ utf16Encode (String.mk l) := rfl

/-! ## BIFF8 record writers

Each `writeX` below is the byte image of the like-named Go method.  Record
type constants are written inline in decimal/hex as in the source.
Go `math.Float64bits` constants are fixed IEEE-754 bit patterns:
`0.001 = 0x3F50624DD2F1A9FC`, `0.75 = 0x3FE8000000000000`,
`1.0 = 0x3FF0000000000000`. -/

/-- UTF-8 bytes of the ASCII-only literals the source casts with
`[]byte(s)`. -/
def asciiBytes (s : String) : List Nat := s.data.map Char.toNat

def writeBOF (subType : Nat) : List Nat :=
  writeRecord 0x0809 (u16le 0x0600 ++ u16le subType ++ u16le 0x0DBB ++
    u16le 0x07CC ++ u32le 0 ++ u32le 6)

def writeEOF : List Nat := writeRecord 0x000A []

def writeCodePage : List Nat := writeRecord 0x0042 (u16le 0x04B0)

def writeDefaultFont : List Nat :=
  writeRecord 0x0031 (u16le 200 ++ u16le 0 ++ u16le 0x7FFF ++ u16le 400 ++
    u16le 0 ++ [0, 0, 1, 0] ++ [(asciiBytes "Arial").length, 0x00] ++
    asciiBytes "Arial")

def writeFormat : List Nat :=
  writeRecord 0x041E (u16le 0x00A4 ++ u16le (asciiBytes "General").length ++
    [0x00] ++ asciiBytes "General")

def writeXF (isStyleXF : Bool) (fontIndex : Nat) : List Nat :=
  if isStyleXF then
    writeRecord 0x00E0 (u16le fontIndex ++ u16le 0x00A4 ++ u16le 0xFFF5 ++
      u16le 0x0020 ++ u32le 0x0000F400 ++ u32le 0 ++ u32le 0x20C00000)
  else
    writeRecord 0x00E0 (u16le fontIndex ++ u16le 0x00A4 ++ u16le 0x0001 ++
      u16le 0x0020 ++ u32le 0x0000F800 ++ u32le 0 ++ u32le 0x20C00000)

def writeDefaultStyle : List Nat := writeRecord 0x0293 (u16le 0x8000 ++ [0, 0xFF])

def writeWindow1 : List Nat :=
  writeRecord 0x003D (u16le 0 ++ u16le 0 ++ u16le 0x4000 ++ u16le 0x3000 ++
    u16le 0x0038 ++ u16le 0 ++ u16le 0 ++ u16le 1 ++ u16le 600)

def writeWindow2 : List Nat :=
  writeRecord 0x023E (u16le 0x06B6 ++ u16le 0 ++ u16le 0 ++ u16le 0x0040 ++
    u16le 0 ++ u16le 0 ++ u32le 0 ++ u16le 0)

def writeDefaultRowHeight : List Nat :=
  writeRecord 0x0225 (u16le 0x0000 ++ u16le 0x00FF)

def writeWSBool : List Nat := writeRecord 0x0081 (u16le 0x04C1)

def writeBookBool : List Nat := writeRecord 0x00DA (u16le 0)

def writeInterfaceHdr : List Nat := writeRecord 0x00E1 (u16le 0x04B0)

def writeMMS : List Nat := writeRecord 0x00C1 (u16le 0)

def writeInterfaceEnd : List Nat := writeRecord 0x00E2 []

def writeWriteAccess : List Nat :=
  writeRecord 0x005C (asciiBytes "Go XLS Writer" ++
    List.replicate (112 - (asciiBytes "Go XLS Writer").length) 0x20)

def writeDateMode : List Nat := writeRecord 0x0022 (u16le 0)

def writePrecision : List Nat := writeRecord 0x000E (u16le 1)

def writeRefreshAll : List Nat := writeRecord 0x01B7 (u16le 0)

def writeCalcMode : List Nat := writeRecord 0x000D (u16le 1)

def writeCalcCount : List Nat := writeRecord 0x000C (u16le 100)

def writeRefMode : List Nat := writeRecord 0x000F (u16le 1)

def writeIteration : List Nat := writeRecord 0x0011 (u16le 0)

def writeDelta : List Nat := writeRecord 0x0010 (u64le 0x3F50624DD2F1A9FC)

def writeSaveRecalc : List Nat := writeRecord 0x005F (u16le 1)

def writePrintHeaders : List Nat := writeRecord 0x002A (u16le 0)

def writePrintGridlines : List Nat := writeRecord 0x002B (u16le 0)

def writeProtect : List Nat := writeRecord 0x0012 (u16le 0)

def writePassword : List Nat := writeRecord 0x0013 (u16le 0)

def writeBackup : List Nat := writeRecord 0x0040 (u16le 0)

def writeHideObj : List Nat := writeRecord 0x008D (u16le 0)

def writeWindowProtect : List Nat := writeRecord 0x0019 (u16le 0)

def writeDSF : List Nat := writeRecord 0x0161 (u16le 0)

def writeFnGroupCount : List Nat := writeRecord 0x013D (u16le 0x0001)

def writeUnknown9C : List Nat := writeRecord 0x009C (u16le 0x000E)

def writeUseSelfs : List Nat := writeRecord 0x0160 (u16le 1)

def writeProt4Rev : List Nat := writeRecord 0x01AF (u16le 0)

def writePasswordRev4 : List Nat := writeRecord 0x01BC (u16le 0)

def writeLeftMargin : List Nat := writeRecord 0x0026 (u64le 0x3FE8000000000000)

def writeRightMargin : List Nat := writeRecord 0x0027 (u64le 0x3FE8000000000000)

def writeTopMargin : List Nat := writeRecord 0x0028 (u64le 0x3FF0000000000000)

def writeBottomMargin : List Nat := writeRecord 0x0029 (u64le 0x3FF0000000000000)

def writeHCenter : List Nat := writeRecord 0x0083 (u16le 0)

def writeVCenter : List Nat := writeRecord 0x0084 (u16le 0)

def writeSetup : List Nat :=
  writeRecord 0x00A1 (u16le 1 ++ u16le 100 ++ u16le 1 ++ u16le 1 ++ u16le 1 ++
    u16le 0x0000 ++ u16le 600 ++ u16le 600 ++ u16le 1 ++ List.replicate 16 0)

def writeGridSet : List Nat := writeRecord 0x0082 (u16le 1)

def writeGuts : List Nat :=
  writeRecord 0x0080 (u16le 0 ++ u16le 0 ++ u16le 0 ++ u16le 0)

def writeObjProtect : List Nat := writeRecord 0x0063 (u16le 0)

def writeScenProtect : List Nat := writeRecord 0x00DD (u16le 0)

def writeHBreak : List Nat := writeRecord 0x001B (u16le 0)

def writeVBreak : List Nat := writeRecord 0x001A (u16le 0)

def writeHeader : List Nat := writeRecord 0x0014 [0, 0, 0x00, 0x00, 0x00]

def writeFooter : List Nat := writeRecord 0x0015 [0, 0, 0x00, 0x00, 0x00]

/-- `writeBoundSheet`: 32-bit stream offset, two flag bytes, rune count
(`byte(nameLen)`), Unicode flag 0x01, then the name via the truncating
`stringToUTF16LE`. -/
def writeBoundSheet (offset : Nat) (sheetName : String) : List Nat :=
  writeRecord 0x0085 (u32le offset ++
    [0, 0, sheetName.data.length % 256, 0x01] ++ stringToUTF16LE sheetName)

/-- `colCount` of `writeDimensions`: running `uint16` maximum of the
truncated row lengths. -/
def maxCols (data : Table) : Nat :=
  data.foldl (fun acc row => max acc (row.length % 65536)) 0

/-- `writeDimensions`: first row 0, last row + 1 as `uint32(len(w.data))`,
first col 0, last col + 1 as the `uint16` running maximum. -/
def writeDimensions (data : Table) : List Nat :=
  writeRecord 0x0200 (u32le 0 ++ u32le data.length ++ u16le 0 ++
    u16le (maxCols data) ++ u16le 0)

def writeRow (rowIndex colCount : Nat) : List Nat :=
  writeRecord 0x0208 (u16le rowIndex ++ u16le 0 ++ u16le colCount ++
    u16le 0x00FF ++ u16le 0 ++ u16le 0 ++ u32le 0x000F0000)

def writeLabelSST (row col : Nat) (value : String)
    (sst : SharedStringTable) : List Nat :=
  writeRecord 0x00FD (u16le row ++ u16le col ++ u16le 0 ++
    u32le (getIndex sst value))

def writeNumber (row col : Nat) (bits : Nat) : List Nat :=
  writeRecord 0x0203 (u16le row ++ u16le col ++ u16le 0 ++ u64le bits)

def writeBool (row col : Nat) (value : Bool) : List Nat :=
  writeRecord 0x0205 (u16le row ++ u16le col ++ u16le 0 ++
    [if value then 1 else 0, 0])

/-- `writeCell` type dispatch: strings and formatted "other" values go to
LABELSST, numeric kinds (already widened to float64 bits) to NUMBER,
booleans to BOOLERR. -/
def writeCell (row col : Nat) (value : CellValue)
    (sst : SharedStringTable) : List Nat :=
  match value with
  | .str s => writeLabelSST row col s sst
  | .num bits => writeNumber row col bits
  | .boolean b => writeBool row col b
  | .other s => writeLabelSST row col s sst

/-- The inner cell loop of `writeRowsAndCells` from column `colIndex`. -/
def writeCellsFrom (rowIndex colIndex : Nat) (cells : Row)
    (sst : SharedStringTable) : List Nat :=
  match cells with
  | [] => []
  | c :: rest =>
      writeCell rowIndex colIndex c sst ++
        writeCellsFrom rowIndex (colIndex + 1) rest sst

/-- The outer row loop of `writeRowsAndCells` from row `rowIndex`. -/
def writeRowsFrom (rowIndex : Nat) (rows : Table)
    (sst : SharedStringTable) : List Nat :=
  match rows with
  | [] => []
  | row :: rest =>
      writeRow rowIndex row.length ++ writeCellsFrom rowIndex 0 row sst ++
        writeRowsFrom (rowIndex + 1) rest sst

def writeRowsAndCells (data : Table) (sst : SharedStringTable) : List Nat :=
  writeRowsFrom 0 data sst

/-- `writeSST`: `total_count`, `unique_count` (both `uint32`), then every
unique string through `encodeStringForSST`. -/
def writeSST (sst : SharedStringTable) : List Nat :=
  writeRecord 0x00FC (u32le sst.totalCount ++ u32le sst.uniqueCount ++
    sst.strings.foldr (fun s acc => encodeStringForSST s ++ acc) [])

/-- The workbook-globals records of `writeBIFF8` up to (and including)
USESELFS — everything written before the SST/BOUNDSHEET/EOF tail. -/
def workbookGlobals : List Nat :=
  writeBOF 0x0005 ++ writeInterfaceHdr ++ writeMMS ++ writeInterfaceEnd ++
  writeWriteAccess ++ writeCodePage ++ writeDSF ++ writeFnGroupCount ++
  writeUnknown9C ++ writeWindowProtect ++ writeProtect ++ writeObjProtect ++
  writePassword ++ writeProt4Rev ++ writePasswordRev4 ++ writeBackup ++
  writeHideObj ++ writeWindow1 ++ writeDateMode ++ writePrecision ++
  writeRefreshAll ++ writeBookBool ++
  (List.replicate 7 writeDefaultFont).flatten ++ writeFormat ++
  (List.replicate 16 (writeXF true 6)).flatten ++
  writeXF false 6 ++ writeXF false 7 ++
  writeDefaultStyle ++ writeUseSelfs

/-- The worksheet half of the stream, from the worksheet BOF to the final
EOF. -/
def worksheetBytes (data : Table) (sst : SharedStringTable) : List Nat :=
  writeBOF 0x0010 ++ writeCalcMode ++ writeCalcCount ++ writeRefMode ++
  writeIteration ++ writeDelta ++ writeSaveRecalc ++ writeGuts ++
  writeDefaultRowHeight ++ writeWSBool ++ writeDimensions data ++
  writePrintHeaders ++ writePrintGridlines ++ writeGridSet ++ writeHBreak ++
  writeVBreak ++ writeHeader ++ writeFooter ++ writeHCenter ++ writeVCenter ++
  writeLeftMargin ++ writeRightMargin ++ writeTopMargin ++ writeBottomMargin ++
  writeSetup ++ writeProtect ++ writeScenProtect ++ writeWindowProtect ++
  writeObjProtect ++ writePassword ++ writeRowsAndCells data sst ++
  writeWindow2 ++ writeEOF

/-- The `worksheetOffset` computation of `writeBIFF8`: current buffer
length, plus the SST bytes measured in a scratch buffer, plus
`boundsheetSize = 4 + 6 + 1 + len(sheetNameBytes) + 1`, plus 4 for the
globals EOF record. -/
def worksheetOffset (data : Table) (sheetName : String) : Nat :=
  workbookGlobals.length + (writeSST (buildSST data)).length +
    (4 + 6 + 1 + (stringToUTF16LE sheetName).length + 1) + 4

/-- `writeBIFF8`: globals, then SST bytes, BOUNDSHEET (carrying the
precomputed worksheet offset), globals EOF, then the worksheet stream. -/
def writeBIFF8 (data : Table) (sheetName : String) : List Nat :=
  workbookGlobals ++ writeSST (buildSST data) ++
    writeBoundSheet (worksheetOffset data sheetName) sheetName ++
    writeEOF ++ worksheetBytes data (buildSST data)

/-! ## CFB container writer (cfb.go)

Sector size 512.  Special FAT entries: `0xFFFFFFFD` FAT sector,
`0xFFFFFFFE` end of chain, `0xFFFFFFFF` free.  A Go slice store
`fat[i] = v` panics when `i` is out of range; `setAt` returns `none`
there, and the whole of `WriteCFB` is `none` when the construction
panics. -/

def cfbFATSector : Nat := 0xFFFFFFFD

def cfbEndOfChain : Nat := 0xFFFFFFFE

def cfbFreeSector : Nat := 0xFFFFFFFF

/-- `data_sectors = ceil(max(len(workbook), 4096) / 512)` as computed by
`WriteCFB` (`(dataSize + cfbSectorSize - 1) / cfbSectorSize`). -/
def dataSectorsOf (workbookData : List Nat) : Nat :=
  (max workbookData.length 4096 + 512 - 1) / 512

/-- The 512-byte CFB header of `NewCFBHeader`/`WriteTo`, with the fields
`WriteCFB` fills in: one FAT sector, first directory sector, `DIFAT[0]`. -/
def cfbHeader (fatSector dirSector : Nat) : List Nat :=
  [0xD0, 0xCF, 0x11, 0xE0, 0xA1, 0xB1, 0x1A, 0xE1] ++
  List.replicate 16 0 ++
  u16le 0x003E ++ u16le 0x0003 ++ u16le 0xFFFE ++ u16le 0x0009 ++
  u16le 0x0006 ++ List.replicate 6 0 ++
  u32le 0 ++ u32le 1 ++ u32le dirSector ++ u32le 0 ++ u32le 0x00001000 ++
  u32le cfbEndOfChain ++ u32le 0 ++ u32le cfbEndOfChain ++ u32le 0 ++
  u32le fatSector ++
  (List.replicate 108 cfbFreeSector).foldr (fun v acc => u32le v ++ acc) []

/-- One 128-byte directory entry (`CFBDirectoryEntry.WriteTo`): 64-byte
name buffer, name length, object type, color flag, sibling/child IDs,
CLSID, state bits, times, start sector, stream size. -/
def dirEntry (name : List Nat) (nameLength objectType colorFlag : Nat)
    (leftSib rightSib child startSector streamSize : Nat) : List Nat :=
  (name ++ List.replicate 64 0).take 64 ++
  u16le nameLength ++ [objectType, colorFlag] ++
  u32le leftSib ++ u32le rightSib ++ u32le child ++
  List.replicate 16 0 ++ u32le 0 ++ u64le 0 ++ u64le 0 ++
  u32le startSector ++ u64le streamSize

/-- The directory sector written by `WriteCFB`: Root Entry, "Workbook",
two unused entries. -/
def dirSectorBytes (dataSize : Nat) : List Nat :=
  dirEntry (stringToUTF16LE "Root Entry")
    ((stringToUTF16LE "Root Entry").length + 2) 5 1
    cfbFreeSector cfbFreeSector 1 cfbEndOfChain 0 ++
  dirEntry (stringToUTF16LE "Workbook")
    ((stringToUTF16LE "Workbook").length + 2) 2 1
    cfbFreeSector cfbFreeSector cfbFreeSector 0 dataSize ++
  dirEntry [] 0 0 0 cfbFreeSector cfbFreeSector cfbFreeSector cfbEndOfChain 0 ++
  dirEntry [] 0 0 0 cfbFreeSector cfbFreeSector cfbFreeSector cfbEndOfChain 0

/-- A Go slice store: in range updates, out of range panics (`none`). -/
def setAt (l : List Nat) (i v : Nat) : Option (List Nat) :=
  if i < l.length then some (l.set i v) else none

/-- The FAT construction of `WriteCFB`: 128 entries all free, the linear
data chain (`fat[i] = i+1`, end-of-chain at the last data sector), then
the FAT-sector marker and the one-sector directory chain. -/
def makeFat (dataSectors : Nat) : Option (List Nat) :=
  ((List.range dataSectors).foldlM
      (fun fat i =>
        setAt fat i (if i = dataSectors - 1 then cfbEndOfChain else i + 1))
      (List.replicate 128 cfbFreeSector)).bind
    (fun fat => (setAt fat dataSectors cfbFATSector).bind
      (fun fat => setAt fat (dataSectors + 1) cfbEndOfChain))

/-- `WriteCFB`: header, workbook payload zero-padded to a sector boundary
(with a 4096-byte floor), the FAT sector, the directory sector.  `none`
models the index-out-of-range panic of the FAT construction. -/
def writeCFB (workbookData : List Nat) : Option (List Nat) :=
  (makeFat (dataSectorsOf workbookData)).map (fun fat =>
    cfbHeader (dataSectorsOf workbookData) (dataSectorsOf workbookData + 1) ++
    (workbookData ++
      List.replicate (dataSectorsOf workbookData * 512 - workbookData.length) 0) ++
    fat.foldr (fun v acc => u32le v ++ acc) [] ++
    dirSectorBytes (max workbookData.length 4096))

/-! ## A BIFF record walker

`parseRecords` walks a byte stream by `(type, length, payload)` frames;
`none` when a frame is truncated.  It is used to state which records a
stream contains. -/

def parseRecs : Nat → List Nat → Option (List (Nat × List Nat))
  | _, [] => some []
  | 0, _ :: _ => none
  | fuel + 1, t0 :: t1 :: l0 :: l1 :: rest =>
      if l0 + 256 * l1 ≤ rest.length then
        match parseRecs fuel (rest.drop (l0 + 256 * l1)) with
        | some rs => some ((t0 + 256 * t1, rest.take (l0 + 256 * l1)) :: rs)
        | none => none
      else none
  | _ + 1, _ => none

def parseRecords (s : List Nat) : Option (List (Nat × List Nat)) :=
  parseRecs s.length s

theorem parseRecs_mono (fuel : Nat) :
    ∀ s : List Nat, s.length ≤ fuel → parseRecs fuel s = parseRecs s.length s := by
  induction fuel using Nat.strong_induction_on with
  | _ fuel ih =>
      intro s hs
      match fuel, s with
      | 0, [] => rfl
      | fuel + 1, [] => rfl
      | 0, a :: l => simp at hs
      | fuel + 1, [a] => rfl
      | fuel + 1, [a, b] => rfl
      | fuel + 1, [a, b, c] => rfl
      | fuel + 1, a :: b :: c :: d :: rest =>
          show parseRecs (fuel + 1) _ = parseRecs (rest.length + 4) _
          have h4 : rest.length + 4 = (rest.length + 3) + 1 := rfl
          rw [h4]
          show (if c + 256 * d ≤ rest.length then _ else _) =
            (if c + 256 * d ≤ rest.length then _ else _)
          by_cases hle : c + 256 * d ≤ rest.length
          · simp only [if_pos hle]
            have hlen : (rest.drop (c + 256 * d)).length = rest.length - (c + 256 * d) :=
              List.length_drop _ _
            simp only [List.length_cons] at hs
            rw [ih fuel (by omega) _ (by omega),
              ih (rest.length + 3) (by omega) _ (by omega)]
          · simp only [if_neg hle]

/-- Parsing a well-formed record off the front of a stream. -/
theorem parseRecords_record (t : Nat) (d rest : List Nat)
    (hd : d.length < 65536) :
    parseRecords (writeRecord t d ++ rest) =
      (parseRecords rest).map (fun rs => (t % 65536, d) :: rs) := by
  have hshape : writeRecord t d ++ rest =
      (t % 256) :: (t / 256 % 256) :: (d.length % 256) ::
        (d.length / 256 % 256) :: (d ++ rest) := by
    simp [writeRecord, u16le]
  rw [hshape]
  show parseRecs ((d ++ rest).length + 4) _ = _
  have h4 : (d ++ rest).length + 4 = ((d ++ rest).length + 3) + 1 := rfl
  rw [h4]
  have hlen : d.length % 256 + 256 * (d.length / 256 % 256) = d.length := by
    omega
  show (if d.length % 256 + 256 * (d.length / 256 % 256) ≤ (d ++ rest).length
        then _ else _) = _
  rw [hlen]
  have hle : d.length ≤ (d ++ rest).length := by
    simp [List.length_append]
  rw [if_pos hle]
  have htake : (d ++ rest).take d.length = d := List.take_left d rest
  have hdrop : (d ++ rest).drop d.length = rest := List.drop_left d rest
  rw [htake, hdrop]
  have hfuel : rest.length ≤ (d ++ rest).length + 3 := by
    simp [List.length_append]
    omega
  rw [parseRecs_mono _ rest hfuel]
  have hty : t % 256 + 256 * (t / 256 % 256) = t % 65536 := by omega
  rw [hty]
  show (match parseRecords rest with
        | some rs => some ((t % 65536, d) :: rs)
        | none => none) = _
  cases parseRecords rest with
  | none => rfl
  | some rs => rfl

/-! ## Row-record fields of a stream -/

/-- The first payload word (the row field) of every ROW (0x0208) record in
a parsed record list. -/
def rowRecFields (rs : List (Nat × List Nat)) : List Nat :=
  (rs.filter (fun r => r.1 == 0x0208)).map (fun r => decodeU16 r.2 0)

/-- Row fields of all ROW records of a byte stream, `none` if the stream
is not record-framed. -/
def rowFieldsOf (s : List Nat) : Option (List Nat) :=
  (parseRecords s).map rowRecFields

theorem rowRecFields_append (a b : List (Nat × List Nat)) :
    rowRecFields (a ++ b) = rowRecFields a ++ rowRecFields b := by
  simp [rowRecFields, List.filter_append]

theorem parse_prepend_record (t : Nat) (d Z Y : List Nat)
    (rs₀ : List (Nat × List Nat)) (hd : d.length < 65536)
    (h : parseRecords Z = (parseRecords Y).map (fun rs => rs₀ ++ rs)) :
    parseRecords (writeRecord t d ++ Z) =
      (parseRecords Y).map (fun rs => ((t % 65536, d) :: rs₀) ++ rs) := by
  rw [parseRecords_record t d Z hd, h]
  cases parseRecords Y <;> rfl

/-- The cell loop contributes only non-ROW records to the stream. -/
theorem writeCellsFrom_parse (row : Row) :
    ∀ (ri ci : Nat) (sst : SharedStringTable) (Y : List Nat),
      ∃ rs₀ : List (Nat × List Nat),
        parseRecords (writeCellsFrom ri ci row sst ++ Y) =
          (parseRecords Y).map (fun rs => rs₀ ++ rs) ∧
        rowRecFields rs₀ = [] := by
  induction row with
  | nil =>
      intro ri ci sst Y
      refine ⟨[], ?_, rfl⟩
      simp only [writeCellsFrom, List.nil_append]
      cases parseRecords Y <;> rfl
  | cons c rest ih =>
      intro ri ci sst Y
      obtain ⟨rs₀, hps, hflt⟩ := ih ri (ci + 1) sst Y
      cases c with
      | str s =>
          refine ⟨(0x00FD % 65536, u16le ri ++ u16le ci ++ u16le 0 ++
            u32le (getIndex sst s)) :: rs₀, ?_, ?_⟩
          · simp only [writeCellsFrom, writeCell, writeLabelSST, List.append_assoc]
            exact parse_prepend_record _ _ _ _ _ (by simp [u16le, u32le]) hps
          · simp [rowRecFields, hflt] at hflt ⊢
            exact hflt
      | num bits =>
          refine ⟨(0x0203 % 65536, u16le ri ++ u16le ci ++ u16le 0 ++
            u64le bits) :: rs₀, ?_, ?_⟩
          · simp only [writeCellsFrom, writeCell, writeNumber, List.append_assoc]
            exact parse_prepend_record _ _ _ _ _ (by simp [u16le, u64le, u32le]) hps
          · simp [rowRecFields, hflt] at hflt ⊢
            exact hflt
      | boolean b =>
          refine ⟨(0x0205 % 65536, u16le ri ++ u16le ci ++ u16le 0 ++
            [if b then 1 else 0, 0]) :: rs₀, ?_, ?_⟩
          · simp only [writeCellsFrom, writeCell, writeBool, List.append_assoc]
            exact parse_prepend_record _ _ _ _ _ (by simp [u16le]) hps
          · simp [rowRecFields, hflt] at hflt ⊢
            exact hflt
      | other s =>
          refine ⟨(0x00FD % 65536, u16le ri ++ u16le ci ++ u16le 0 ++
            u32le (getIndex sst s)) :: rs₀, ?_, ?_⟩
          · simp only [writeCellsFrom, writeCell, writeLabelSST, List.append_assoc]
            exact parse_prepend_record _ _ _ _ _ (by simp [u16le, u32le]) hps
          · simp [rowRecFields, hflt] at hflt ⊢
            exact hflt

/-- The row loop contributes one ROW record per input row, in order, whose
row field is the row index truncated to `uint16`. -/
theorem writeRowsFrom_parse (rows : Table) :
    ∀ (ri : Nat) (sst : SharedStringTable) (Y : List Nat),
      ∃ rs₀ : List (Nat × List Nat),
        parseRecords (writeRowsFrom ri rows sst ++ Y) =
          (parseRecords Y).map (fun rs => rs₀ ++ rs) ∧
        rowRecFields rs₀ = (List.range' ri rows.length).map (· % 65536) := by
  induction rows with
  | nil =>
      intro ri sst Y
      refine ⟨[], ?_, rfl⟩
      simp only [writeRowsFrom, List.nil_append]
      cases parseRecords Y <;> rfl
  | cons row rest ih =>
      intro ri sst Y
      obtain ⟨rs₁, hps₁, hflt₁⟩ := ih (ri + 1) sst Y
      obtain ⟨rs₀, hps₀, hflt₀⟩ :=
        writeCellsFrom_parse row ri 0 sst (writeRowsFrom (ri + 1) rest sst ++ Y)
      refine ⟨(0x0208 % 65536, u16le ri ++ u16le 0 ++ u16le row.length ++
        u16le 0x00FF ++ u16le 0 ++ u16le 0 ++ u32le 0x000F0000) ::
        (rs₀ ++ rs₁), ?_, ?_⟩
      · simp only [writeRowsFrom, writeRow, List.append_assoc]
        have hz : parseRecords (writeCellsFrom ri 0 row sst ++
            (writeRowsFrom (ri + 1) rest sst ++ Y)) =
            (parseRecords Y).map (fun rs => (rs₀ ++ rs₁) ++ rs) := by
          rw [hps₀, hps₁]
          cases parseRecords Y <;> simp
        exact parse_prepend_record _ _ _ _ _ (by simp [u16le, u32le]) hz
      · rw [show ((0x0208 % 65536, u16le ri ++ u16le 0 ++ u16le row.length ++
          u16le 0x00FF ++ u16le 0 ++ u16le 0 ++ u32le 0x000F0000) ::
          (rs₀ ++ rs₁)) = [(0x0208 % 65536, u16le ri ++ u16le 0 ++
          u16le row.length ++ u16le 0x00FF ++ u16le 0 ++ u16le 0 ++
          u32le 0x000F0000)] ++ (rs₀ ++ rs₁) from rfl]
        rw [rowRecFields_append, rowRecFields_append, hflt₀, hflt₁]
        have hone : rowRecFields [(0x0208 % 65536, u16le ri ++ u16le 0 ++
            u16le row.length ++ u16le 0x00FF ++ u16le 0 ++ u16le 0 ++
            u32le 0x000F0000)] = [ri % 65536] := by
          simp only [rowRecFields, List.filter]
          rw [show ((0x0208 % 65536 : Nat) == 0x0208) = true from rfl]
          simp only [List.filter_nil, List.map]
          rw [show u16le ri ++ u16le 0 ++ u16le row.length ++ u16le 0x00FF ++
            u16le 0 ++ u16le 0 ++ u32le 0x000F0000 =
            u16le ri ++ (u16le 0 ++ u16le row.length ++ u16le 0x00FF ++
            u16le 0 ++ u16le 0 ++ u32le 0x000F0000) from by
              simp [List.append_assoc]]
          rw [decodeU16_u16le]
        rw [hone]
        have hrange : List.range' ri (row :: rest).length =
            ri :: List.range' (ri + 1) rest.length := by
          simp [List.range'_succ]
        rw [hrange]
        simp

/-- Stream-level row fields of `writeRowsAndCells`: the `uint16`-truncated
row indices in order. -/
theorem writeRowsAndCells_rowFields (data : Table) (sst : SharedStringTable) :
    rowFieldsOf (writeRowsAndCells data sst) =
      some ((List.range' 0 data.length).map (· % 65536)) := by
  obtain ⟨rs₀, hps, hflt⟩ := writeRowsFrom_parse data 0 sst []
  rw [writeRowsAndCells, ← List.append_nil (writeRowsFrom 0 data sst)]
  unfold rowFieldsOf
  rw [hps, show parseRecords ([] : List Nat) = some [] from rfl]
  simp [hflt]

/-! ## FAT construction facts -/

theorem option_foldlM_snoc (f : List Nat → Nat → Option (List Nat)) :
    ∀ (l : List Nat) (a : Nat) (b : List Nat),
      (l ++ [a]).foldlM f b = (l.foldlM f b).bind (fun x => f x a) := by
  intro l
  induction l with
  | nil =>
      intro a b
      show List.foldlM f b [a] = (some b).bind fun x => f x a
      rw [Option.some_bind]
      simp only [List.foldlM_cons, List.foldlM_nil]
      cases hf : f b a with
      | none => rfl
      | some x => rfl
  | cons c l ih =>
      intro a b
      simp only [List.cons_append, List.foldlM_cons]
      cases hf : f b c with
      | none => rfl
      | some x => exact ih a x

/-- The FAT contents after the data-chain loop has run `n` iterations
(bound parameter `b` is `dataSectors`). -/
def loopFat (n b : Nat) : List Nat :=
  (List.range 128).map (fun i =>
    if i < n then (if i = b - 1 then cfbEndOfChain else i + 1)
    else cfbFreeSector)

theorem loopFat_length (n b : Nat) : (loopFat n b).length = 128 := by
  simp [loopFat]

theorem loopFat_zero (b : Nat) : loopFat 0 b = List.replicate 128 cfbFreeSector := by
  simp [loopFat, List.map_const']

theorem fat_loop_spec (b : Nat) :
    ∀ n, n ≤ 128 →
      (List.range n).foldlM
          (fun fat i =>
            setAt fat i (if i = b - 1 then cfbEndOfChain else i + 1))
          (List.replicate 128 cfbFreeSector) = some (loopFat n b) := by
  intro n
  induction n with
  | zero =>
      intro _
      rw [loopFat_zero]
      rfl
  | succ n ih =>
      intro h
      rw [List.range_succ, option_foldlM_snoc, ih (by omega)]
      have hlen : n < (loopFat n b).length := by rw [loopFat_length]; omega
      rw [Option.some_bind]
      simp only [setAt, if_pos hlen]
      congr 1
      apply List.ext_getElem?
      intro i
      by_cases hi : i < 128
      · by_cases hin : i = n
        · subst hin
          rw [List.getElem?_set_self (by rw [loopFat_length]; omega)]
          simp [loopFat, List.getElem?_map, List.getElem?_range hi]
        · rw [List.getElem?_set_ne (by omega)]
          simp only [loopFat, List.getElem?_map, List.getElem?_range hi,
            Option.map_some']
          by_cases hltn : i < n
          · rw [if_pos hltn, if_pos (by omega : i < n + 1)]
          · rw [if_neg hltn, if_neg (by omega : ¬i < n + 1)]
      · have h₁ : (loopFat n b).length ≤ i := by rw [loopFat_length]; omega
        rw [List.getElem?_eq_none (by simpa using h₁),
          List.getElem?_eq_none (by rw [loopFat_length]; omega)]

/-- The finished FAT sector contents (for `dataSectors ≤ 126`, when no
store is out of range). -/
def fatFinal (ds : Nat) : List Nat :=
  ((loopFat ds ds).set ds cfbFATSector).set (ds + 1) cfbEndOfChain

theorem fatFinal_length (ds : Nat) : (fatFinal ds).length = 128 := by
  simp [fatFinal, loopFat_length]

theorem makeFat_eq (ds : Nat) (h : ds ≤ 126) :
    makeFat ds = some (fatFinal ds) := by
  unfold makeFat
  rw [fat_loop_spec ds ds (by omega), Option.some_bind]
  have h1 : ds < (loopFat ds ds).length := by rw [loopFat_length]; omega
  simp only [setAt, if_pos h1, Option.some_bind]
  have h2 : ds + 1 < ((loopFat ds ds).set ds cfbFATSector).length := by
    rw [List.length_set, loopFat_length]; omega
  simp only [if_pos h2]
  rfl

theorem fatFinal_getD (ds i : Nat) (h : ds ≤ 126) (hi : i < 128) :
    (fatFinal ds).getD i 0 =
      if i < ds then (if i = ds - 1 then cfbEndOfChain else i + 1)
      else if i = ds then cfbFATSector
      else if i = ds + 1 then cfbEndOfChain
      else cfbFreeSector := by
  unfold fatFinal
  rw [List.getD_eq_getElem?_getD]
  by_cases h1 : i = ds + 1
  · subst h1
    rw [List.getElem?_set_self (by
      rw [List.length_set, loopFat_length]; omega)]
    rw [if_neg (by omega), if_neg (by omega), if_pos rfl]
    rfl
  · rw [List.getElem?_set_ne (by omega)]
    by_cases h2 : i = ds
    · subst h2
      rw [List.getElem?_set_self (by rw [loopFat_length]; omega)]
      rw [if_neg (by omega), if_pos rfl]
      rfl
    · rw [List.getElem?_set_ne (by omega)]
      simp only [loopFat, List.getElem?_map, List.getElem?_range hi,
        Option.map_some']
      by_cases h3 : i < ds
      · rw [if_pos h3, if_pos h3]
        rfl
      · rw [if_neg h3, if_neg h3, if_neg h2, if_neg h1]
        rfl

/-- Length of the little-endian flattening of a list of u32 entries. -/
theorem u32flat_length (l : List Nat) :
    (l.foldr (fun v acc => u32le v ++ acc) []).length = 4 * l.length := by
  induction l with
  | nil => rfl
  | cons v l ih =>
      simp only [List.foldr_cons, List.length_append, u32le_length, ih,
        List.length_cons]
      omega

theorem cfbHeader_length (fatSector dirSector : Nat) :
    (cfbHeader fatSector dirSector).length = 512 := by
  simp only [cfbHeader, List.length_append, List.length_cons,
    List.length_nil, List.length_replicate, u16le_length, u32le_length,
    u32flat_length]

theorem dirEntry_length (name : List Nat) (a b c d e f g h : Nat) :
    (dirEntry name a b c d e f g h).length = 128 := by
  simp only [dirEntry, List.length_append, List.length_cons,
    List.length_nil, List.length_take, List.length_replicate, u16le_length,
    u32le_length, u64le_length]
  omega

theorem dirSectorBytes_length (dataSize : Nat) :
    (dirSectorBytes dataSize).length = 512 := by
  simp [dirSectorBytes, List.length_append, dirEntry_length]

/-- `dataSectors` is at least 8 (the 4096-byte floor) and the padded
payload always fits the sector count. -/
theorem dataSectorsOf_ge (wb : List Nat) : 8 ≤ dataSectorsOf wb := by
  unfold dataSectorsOf
  have h1 : 4096 ≤ max wb.length 4096 := Nat.le_max_right _ _
  omega

theorem length_le_sectors (wb : List Nat) :
    wb.length ≤ dataSectorsOf wb * 512 := by
  unfold dataSectorsOf
  have h1 : wb.length ≤ max wb.length 4096 := Nat.le_max_left _ _
  omega

/-- The successful `WriteCFB` output, explicitly. -/
theorem writeCFB_eq (wb : List Nat) (h : dataSectorsOf wb ≤ 126) :
    writeCFB wb = some (cfbHeader (dataSectorsOf wb) (dataSectorsOf wb + 1) ++
      (wb ++ List.replicate (dataSectorsOf wb * 512 - wb.length) 0) ++
      (fatFinal (dataSectorsOf wb)).foldr (fun v acc => u32le v ++ acc) [] ++
      dirSectorBytes (max wb.length 4096)) := by
  unfold writeCFB
  rw [makeFat_eq _ h]
  rfl

/-! ## Stream-offset facts for the BOUNDSHEET record -/

theorem writeBoundSheet_length (o : Nat) (name : String) :
    (writeBoundSheet o name).length = 12 + (stringToUTF16LE name).length := by
  simp only [writeBoundSheet, writeRecord_length, List.length_append,
    u32le_length, List.length_cons, List.length_nil]
  omega

theorem writeEOF_length : writeEOF.length = 4 := rfl

/-- The byte count written before the worksheet BOF equals the
`worksheetOffset` computation. -/
theorem biff8_head_length (data : Table) (name : String) :
    (workbookGlobals ++ writeSST (buildSST data) ++
      writeBoundSheet (worksheetOffset data name) name ++ writeEOF).length =
      worksheetOffset data name := by
  simp only [List.length_append, writeBoundSheet_length, writeEOF_length,
    worksheetOffset]
  omega

theorem writeBIFF8_drop (data : Table) (name : String) :
    (writeBIFF8 data name).drop (worksheetOffset data name) =
      worksheetBytes data (buildSST data) := by
  unfold writeBIFF8
  rw [show workbookGlobals ++ writeSST (buildSST data) ++
      writeBoundSheet (worksheetOffset data name) name ++ writeEOF ++
      worksheetBytes data (buildSST data) =
      (workbookGlobals ++ writeSST (buildSST data) ++
        writeBoundSheet (worksheetOffset data name) name ++ writeEOF) ++
      worksheetBytes data (buildSST data) from by
    simp [List.append_assoc]]
  exact List.drop_left' (biff8_head_length data name)

theorem worksheetBytes_take_BOF (data : Table) (sst : SharedStringTable) :
    (worksheetBytes data sst).take 20 = writeBOF 0x0010 := by
  unfold worksheetBytes
  rw [show writeBOF 0x0010 ++ writeCalcMode ++ writeCalcCount ++ writeRefMode ++
    writeIteration ++ writeDelta ++ writeSaveRecalc ++ writeGuts ++
    writeDefaultRowHeight ++ writeWSBool ++ writeDimensions data ++
    writePrintHeaders ++ writePrintGridlines ++ writeGridSet ++ writeHBreak ++
    writeVBreak ++ writeHeader ++ writeFooter ++ writeHCenter ++ writeVCenter ++
    writeLeftMargin ++ writeRightMargin ++ writeTopMargin ++ writeBottomMargin ++
    writeSetup ++ writeProtect ++ writeScenProtect ++ writeWindowProtect ++
    writeObjProtect ++ writePassword ++ writeRowsAndCells data sst ++
    writeWindow2 ++ writeEOF = writeBOF 0x0010 ++ (writeCalcMode ++
    writeCalcCount ++ writeRefMode ++
    writeIteration ++ writeDelta ++ writeSaveRecalc ++ writeGuts ++
    writeDefaultRowHeight ++ writeWSBool ++ writeDimensions data ++
    writePrintHeaders ++ writePrintGridlines ++ writeGridSet ++ writeHBreak ++
    writeVBreak ++ writeHeader ++ writeFooter ++ writeHCenter ++ writeVCenter ++
    writeLeftMargin ++ writeRightMargin ++ writeTopMargin ++ writeBottomMargin ++
    writeSetup ++ writeProtect ++ writeScenProtect ++ writeWindowProtect ++
    writeObjProtect ++ writePassword ++ writeRowsAndCells data sst ++
    writeWindow2 ++ writeEOF) from by simp [List.append_assoc]]
  exact List.take_left' rfl

theorem writeBIFF8_boundsheet_at (data : Table) (name : String) :
    ((writeBIFF8 data name).drop
        (workbookGlobals.length + (writeSST (buildSST data)).length)).take
        (12 + (stringToUTF16LE name).length) =
      writeBoundSheet (worksheetOffset data name) name := by
  unfold writeBIFF8
  rw [show workbookGlobals ++ writeSST (buildSST data) ++
      writeBoundSheet (worksheetOffset data name) name ++ writeEOF ++
      worksheetBytes data (buildSST data) =
      (workbookGlobals ++ writeSST (buildSST data)) ++
      (writeBoundSheet (worksheetOffset data name) name ++
        (writeEOF ++ worksheetBytes data (buildSST data))) from by
    simp [List.append_assoc]]
  rw [List.drop_left' (by simp [List.length_append])]
  exact List.take_left' (writeBoundSheet_length _ _)

theorem writeBoundSheet_offset_field (o : Nat) (name : String) :
    decodeU32 (writeBoundSheet o name) 4 = o % 4294967296 := by
  show decodeU32 (writeRecord 0x0085 (u32le o ++
    [0, 0, name.data.length % 256, 0x01] ++ stringToUTF16LE name)) 4 = _
  rw [show writeRecord 0x0085 (u32le o ++
      [0, 0, name.data.length % 256, 0x01] ++ stringToUTF16LE name) =
      (0x85 % 256) :: (0x85 / 256 % 256) ::
      ((u32le o ++ [0, 0, name.data.length % 256, 0x01] ++
        stringToUTF16LE name).length % 256) ::
      ((u32le o ++ [0, 0, name.data.length % 256, 0x01] ++
        stringToUTF16LE name).length / 256 % 256) ::
      (u32le o ++ ([0, 0, name.data.length % 256, 0x01] ++
        stringToUTF16LE name)) from by
    simp [writeRecord, u16le, List.append_assoc]]
  rw [show (4 : Nat) = 0 + 4 from rfl, decodeU32_cons4]
  exact decodeU32_u32le o _

/-! ## UTF-16 code-point bounds -/

theorem char_toNat_lt (c : Char) : c.toNat < 1114112 := by
  have h := c.valid
  rcases h with h | ⟨h1, h2⟩
  · simp [Char.toNat]; omega
  · simp [Char.toNat]; omega

theorem utf16CodeUnits_bmp (c : Char) (h : c.toNat < 65536) :
    utf16CodeUnits c = u16le c.toNat := if_pos h

theorem utf16CodeUnits_supp (c : Char) (h : 65536 ≤ c.toNat) :
    (utf16CodeUnits c).length = 4 ∧
    decodeU16 (utf16CodeUnits c) 0 = 55296 + (c.toNat - 65536) / 1024 ∧
    decodeU16 (utf16CodeUnits c) 2 = 56320 + (c.toNat - 65536) % 1024 := by
  have hv := char_toNat_lt c
  have hne : ¬c.toNat < 65536 := by omega
  unfold utf16CodeUnits
  rw [if_neg hne]
  refine ⟨by simp [u16le], ?_, ?_⟩
  · rw [decodeU16_u16le]
    omega
  · rw [show u16le (55296 + (c.toNat - 65536) / 1024) ++
        u16le (56320 + (c.toNat - 65536) % 1024) =
        (55296 + (c.toNat - 65536) / 1024) % 256 ::
        (55296 + (c.toNat - 65536) / 1024) / 256 % 256 ::
        (u16le (56320 + (c.toNat - 65536) % 1024) ++ []) from by
      simp [u16le]]
    rw [show (2 : Nat) = 0 + 1 + 1 from rfl]
    simp only [decodeU16, List.getD_cons_succ]
    have := decodeU16_u16le (56320 + (c.toNat - 65536) % 1024) []
    simp only [decodeU16] at this
    rw [this]
    omega

/-! ## Claim theorems -/

theorem addString_of_found {t : SharedStringTable} {s : String} {j : Nat}
    (h : lookupMap t.stringMap s = some j) :
    addString t s = { t with totalCount := t.totalCount + 1 } := by
  unfold addString
  rw [h]

theorem addString_totalCount (t : SharedStringTable) (s : String) :
    (addString t s).totalCount = t.totalCount + 1 := by
  unfold addString
  cases lookupMap t.stringMap s <;> rfl

theorem addString_lookup_self (t : SharedStringTable) (s : String) :
    ∃ j, lookupMap (addString t s).stringMap s = some j := by
  unfold addString
  cases hl : lookupMap t.stringMap s with
  | some j => exact ⟨j, by simpa using hl⟩
  | none =>
      refine ⟨t.uniqueCount, ?_⟩
      show lookupMap (t.stringMap ++ [(s, t.uniqueCount)]) s = _
      rw [lookupMap_append_none _ hl]
      simp [lookupMap]

/-- C2: after any sequence of `addString` calls on a fresh table,
`uniqueCount` equals the size of the string-to-index map and the length of
the ordered string list, `totalCount` dominates `uniqueCount`, and an
index once assigned to a string is never changed by later calls. -/
theorem C2_sst_invariants (l : List String) :
    (addAll l).uniqueCount = (addAll l).stringMap.length ∧
    (addAll l).uniqueCount = (addAll l).strings.length ∧
    (addAll l).uniqueCount ≤ (addAll l).totalCount ∧
    ∀ (s : String) (i : Nat) (l' : List String),
      lookupMap (addAll l).stringMap s = some i →
      lookupMap (addAll (l ++ l')).stringMap s = some i := by
  obtain ⟨hm, hu, ht⟩ := sstInv_addAll l
  refine ⟨?_, hu, by omega, ?_⟩
  · rw [hm, mapOfList_length, hu]
  · intro s i l' h
    rw [show addAll (l ++ l') = l'.foldl addString (addAll l) from by
      simp [addAll, List.foldl_append]]
    exact foldl_addString_preserves l' h

theorem C2_sst_invariants_witness :
    lookupMap (addAll ["a"]).stringMap "a" = some 0 ∧
    lookupMap (addAll (["a"] ++ ["a", "b"])).stringMap "a" = some 0 :=
  ⟨by decide, (C2_sst_invariants ["a"]).2.2.2 "a" 0 ["a", "b"] (by decide)⟩

/-- C3: a second `add` of the same string appends nothing to the string
list while the two calls together add 2 to `totalCount`; and for any added
string, `getIndex` returns the position at which it was first inserted. -/
theorem C3_sst_add_idempotence :
    (∀ (t : SharedStringTable) (s : String),
      (addString (addString t s) s).strings = (addString t s).strings ∧
      (addString (addString t s) s).totalCount = t.totalCount + 2) ∧
    ∀ (l : List String) (s : String), s ∈ (addAll l).strings →
      getIndex (addAll l) s = (addAll l).strings.indexOf s := by
  constructor
  · intro t s
    obtain ⟨j, hj⟩ := addString_lookup_self t s
    rw [addString_of_found hj]
    exact ⟨rfl, by rw [addString_totalCount]⟩
  · intro l s hs
    obtain ⟨hm, hu, ht⟩ := sstInv_addAll l
    unfold getIndex
    rw [hm, lookupMap_mapOfList 0 hs]
    simp

theorem C3_sst_add_idempotence_witness :
    "b" ∈ (addAll ["a", "b", "a"]).strings ∧
    getIndex (addAll ["a", "b", "a"]) "b" =
      (addAll ["a", "b", "a"]).strings.indexOf "b" :=
  ⟨by decide, C3_sst_add_idempotence.2 ["a", "b", "a"] "b" (by decide)⟩

/-- C6 (amended): the emitter appends type, length and payload and nothing
else, but the 16-bit length field holds `payload.len() mod 2^16` — equal
to `payload.len()` only below 65536. -/
theorem C6_record_emitter (t : Nat) (d : List Nat) :
    (writeRecord t d).length = 4 + d.length ∧
    decodeU16 (writeRecord t d) 0 = t % 65536 ∧
    decodeU16 (writeRecord t d) 2 = d.length % 65536 ∧
    (writeRecord t d).drop 4 = d :=
  ⟨writeRecord_length t d, writeRecord_type_field t d,
    writeRecord_length_field t d, writeRecord_payload t d⟩

/-- C6 counterexample: a 65536-byte payload is framed with length field 0,
not 65536. -/
theorem C6_record_emitter_cex :
    decodeU16 (writeRecord 0x00FC (List.replicate 65536 (0 : Nat))) 2 ≠
      (List.replicate 65536 (0 : Nat)).length := by
  rw [writeRecord_length_field]
  simp only [List.length_replicate]
  omega

/-- C7 (amended): an "other" cell is emitted as LABELSST without being
added to the SST; the index field is the map lookup of the formatted
string with default 0, hence 0 whenever no text cell equals it. -/
theorem C7_other_cell (r c : Nat) (s : String) (data : Table)
    (h : s ∉ textStrings data) :
    writeCell r c (CellValue.other s) (buildSST data) =
      writeRecord 0x00FD (u16le r ++ u16le c ++ u16le 0 ++
        u32le (getIndex (buildSST data) s)) ∧
    s ∉ (buildSST data).strings ∧
    getIndex (buildSST data) s = 0 := by
  have hb := buildSST_eq data
  have hnone : lookupMap (buildSST data).stringMap s = none := by
    rw [hb]
    exact lookupMap_foldl_none _ rfl h
  refine ⟨rfl, ?_, ?_⟩
  · intro hmem
    rw [hb] at hmem
    rcases mem_strings_foldl _ hmem with h' | h'
    · simp [newSST] at h'
    · exact h h'
  · unfold getIndex
    rw [hnone]
    rfl

theorem C7_other_cell_witness :
    "y" ∉ textStrings [[CellValue.str "x"]] ∧
    getIndex (buildSST [[CellValue.str "x"]]) "y" = 0 :=
  ⟨by decide, (C7_other_cell 0 0 "y" [[CellValue.str "x"]] (by decide)).2.2⟩

/-- C7 counterexample: when the formatted string of an "other" cell equals
a text cell's string, the LABELSST index field is that string's SST index
(here 1), not 0. -/
theorem C7_other_cell_cex :
    decodeU32 (writeCell 0 2 (CellValue.other "abc")
      (buildSST [[CellValue.str "x", CellValue.str "abc",
        CellValue.other "abc"]])) 10 = 1 := by
  decide

/-- C9 (amended): `stringToUTF16LE` (sheet names via BOUNDSHEET, directory
names) emits exactly two bytes per code point, the code point's low 16
bits — lossy for supplementary-plane characters; but SST strings go
through the `x/text` UTF-16 encoder (`utf16CodeUnits`), which emits a
4-byte surrogate pair for every supplementary-plane code point. -/
theorem C9_utf16_paths :
    (∀ s : String, (stringToUTF16LE s).length = 2 * s.data.length) ∧
    (∀ (c : Char) (l : List Char),
      stringToUTF16LE (String.mk (c :: l)) =
        (c.toNat % 256) :: (c.toNat / 256 % 256) ::
          stringToUTF16LE (String.mk l)) ∧
    (∀ (o : Nat) (name : String),
      (writeBoundSheet o name).drop 12 = stringToUTF16LE name) ∧
    (∀ c : Char, c.toNat < 65536 → utf16CodeUnits c = u16le c.toNat) ∧
    (∀ c : Char, 65536 ≤ c.toNat →
      (utf16CodeUnits c).length = 4 ∧
      decodeU16 (utf16CodeUnits c) 0 = 55296 + (c.toNat - 65536) / 1024 ∧
      decodeU16 (utf16CodeUnits c) 2 = 56320 + (c.toNat - 65536) % 1024) ∧
    (∀ s : String,
      encodeStringForSST s = u16le s.data.length ++ [1] ++ utf16Encode s) := by
  refine ⟨stringToUTF16LE_length, ?_, ?_, utf16CodeUnits_bmp, utf16CodeUnits_supp,
    fun s => rfl⟩
  · intro c l
    rfl
  · intro o name
    show (writeRecord 0x0085 (u32le o ++
      [0, 0, name.data.length % 256, 0x01] ++ stringToUTF16LE name)).drop 12 =
      stringToUTF16LE name
    rw [show writeRecord 0x0085 (u32le o ++
        [0, 0, name.data.length % 256, 0x01] ++ stringToUTF16LE name) =
        (0x85 % 256) :: (0x85 / 256 % 256) ::
        ((u32le o ++ [0, 0, name.data.length % 256, 0x01] ++
          stringToUTF16LE name).length % 256) ::
        ((u32le o ++ [0, 0, name.data.length % 256, 0x01] ++
          stringToUTF16LE name).length / 256 % 256) ::
        (o % 256) :: (o / 256 % 256) :: (o / 65536 % 256) ::
        (o / 16777216 % 256) ::
        0 :: 0 :: (name.data.length % 256) :: 0x01 ::
        stringToUTF16LE name from by
      simp [writeRecord, u16le, u32le]]
    rfl

theorem C9_utf16_paths_witness :
    65536 ≤ (Char.ofNat 65536).toNat ∧
    (utf16CodeUnits (Char.ofNat 65536)).length = 4 ∧
    decodeU16 (utf16CodeUnits (Char.ofNat 65536)) 0 =
      55296 + ((Char.ofNat 65536).toNat - 65536) / 1024 ∧
    decodeU16 (utf16CodeUnits (Char.ofNat 65536)) 2 =
      56320 + ((Char.ofNat 65536).toNat - 65536) % 1024 :=
  ⟨by decide, C9_utf16_paths.2.2.2.2.1 (Char.ofNat 65536) (by decide)⟩

/-- C9 counterexample: on U+10000, `stringToUTF16LE` emits the truncated
two bytes `00 00`, while the SST encoder emits the surrogate pair
`00 D8 00 DC` — the SST path is not the truncating two-bytes-per-code-point
encoding the claim asserts. -/
theorem C9_utf16_paths_cex :
    stringToUTF16LE (String.mk [Char.ofNat 65536]) = [0, 0] ∧
    utf16Encode (String.mk [Char.ofNat 65536]) = [0, 216, 0, 220] ∧
    encodeStringForSST (String.mk [Char.ofNat 65536]) =
      [1, 0, 1, 0, 216, 0, 220] := by
  refine ⟨by decide, by decide, by decide⟩

/-- C4 (amended): for every workbook occupying at most 126 sectors
(`data_sectors ≤ 126`, i.e. at most 64512 bytes), the FAT sector written
by `WriteCFB` has 128 entries: the linear data chain `i ↦ i+1` ending in
end-of-chain, the FAT-sector marker at `data_sectors`, end-of-chain for
the one-sector directory at `data_sectors + 1`, and the free marker
everywhere else.  For larger workbooks the FAT store indexes out of range
(`WriteCFB` panics, modelled `none`). -/
theorem C4_fat_entries (wb : List Nat) (h : dataSectorsOf wb ≤ 126) :
    makeFat (dataSectorsOf wb) = some (fatFinal (dataSectorsOf wb)) ∧
    writeCFB wb = some (cfbHeader (dataSectorsOf wb) (dataSectorsOf wb + 1) ++
      (wb ++ List.replicate (dataSectorsOf wb * 512 - wb.length) 0) ++
      (fatFinal (dataSectorsOf wb)).foldr (fun v acc => u32le v ++ acc) [] ++
      dirSectorBytes (max wb.length 4096)) ∧
    (fatFinal (dataSectorsOf wb)).length = 128 ∧
    (∀ i, i + 1 < dataSectorsOf wb →
      (fatFinal (dataSectorsOf wb)).getD i 0 = i + 1) ∧
    (fatFinal (dataSectorsOf wb)).getD (dataSectorsOf wb - 1) 0 =
      cfbEndOfChain ∧
    (fatFinal (dataSectorsOf wb)).getD (dataSectorsOf wb) 0 = cfbFATSector ∧
    (fatFinal (dataSectorsOf wb)).getD (dataSectorsOf wb + 1) 0 =
      cfbEndOfChain ∧
    (∀ i, dataSectorsOf wb + 1 < i → i < 128 →
      (fatFinal (dataSectorsOf wb)).getD i 0 = cfbFreeSector) := by
  have hds8 := dataSectorsOf_ge wb
  refine ⟨makeFat_eq _ h, writeCFB_eq wb h, fatFinal_length _, ?_, ?_, ?_, ?_, ?_⟩
  · intro i hi
    rw [fatFinal_getD _ _ h (by omega), if_pos (by omega), if_neg (by omega)]
  · rw [fatFinal_getD _ _ h (by omega), if_pos (by omega), if_pos rfl]
  · rw [fatFinal_getD _ _ h (by omega), if_neg (by omega), if_pos rfl]
  · rw [fatFinal_getD _ _ h (by omega), if_neg (by omega), if_neg (by omega),
      if_pos rfl]
  · intro i h1 h2
    rw [fatFinal_getD _ _ h h2, if_neg (by omega), if_neg (by omega),
      if_neg (by omega)]

theorem C4_fat_entries_witness :
    dataSectorsOf [] ≤ 126 ∧
    (fatFinal (dataSectorsOf [])).getD (dataSectorsOf []) 0 = cfbFATSector ∧
    (fatFinal (dataSectorsOf [])).getD (dataSectorsOf [] - 1) 0 =
      cfbEndOfChain :=
  ⟨by decide, (C4_fat_entries [] (by decide)).2.2.2.2.2.1,
    (C4_fat_entries [] (by decide)).2.2.2.2.1⟩

/-- C4 counterexample: a 64513-byte workbook needs 127 data sectors; the
FAT store `fat[data_sectors + 1] = fat[128]` is out of range, so no FAT
sector is written at all (`WriteCFB` panics) — the claimed entries do not
exist for every workbook byte slice. -/
theorem C4_fat_entries_cex :
    dataSectorsOf (List.replicate 64513 0) = 127 ∧
    makeFat 127 = none ∧
    writeCFB (List.replicate 64513 0) = none := by
  have h1 : dataSectorsOf (List.replicate 64513 0) = 127 := by
    rw [dataSectorsOf, List.length_replicate]
    omega
  have h2 : makeFat 127 = none := by
    unfold makeFat
    rw [fat_loop_spec 127 127 (by omega), Option.some_bind]
    have hl : 127 < (loopFat 127 127).length := by rw [loopFat_length]; omega
    simp only [setAt, if_pos hl, Option.some_bind]
    rw [if_neg (by rw [List.length_set, loopFat_length]; omega)]
  refine ⟨h1, h2, ?_⟩
  rw [writeCFB, h1, h2]
  exact Option.map_none' _

theorem setAt_length {fat fat' : List Nat} {i v : Nat}
    (h : setAt fat i v = some fat') : fat'.length = fat.length := by
  unfold setAt at h
  by_cases hi : i < fat.length
  · rw [if_pos hi] at h
    cases h
    simp
  · rw [if_neg hi] at h
    cases h

theorem fat_fold_length (g : Nat → Nat) :
    ∀ (l : List Nat) (f0 f1 : List Nat),
      l.foldlM (fun fat i => setAt fat i (g i)) f0 = some f1 →
      f1.length = f0.length := by
  intro l
  induction l with
  | nil =>
      intro f0 f1 h
      cases h
      rfl
  | cons a l ih =>
      intro f0 f1 h
      rw [List.foldlM_cons] at h
      cases hs : setAt f0 a (g a) with
      | none => rw [hs] at h; cases h
      | some x =>
          rw [hs] at h
          simp only [Option.bind_eq_bind, Option.some_bind] at h
          rw [ih x f1 h, setAt_length hs]

theorem makeFat_length {ds : Nat} {fat : List Nat}
    (h : makeFat ds = some fat) : fat.length = 128 := by
  unfold makeFat at h
  cases h0 : (List.range ds).foldlM
      (fun f i => setAt f i (if i = ds - 1 then cfbEndOfChain else i + 1))
      (List.replicate 128 cfbFreeSector) with
  | none => rw [h0] at h; cases h
  | some f1 =>
      rw [h0] at h
      simp only [Option.some_bind] at h
      cases h1 : setAt f1 ds cfbFATSector with
      | none => rw [h1] at h; cases h
      | some f2 =>
          rw [h1] at h
          simp only [Option.some_bind] at h
          have e3 := setAt_length h
          have e2 := setAt_length h1
          have e1 := fat_fold_length _ _ _ _ h0
          simp only [List.length_replicate] at e1
          omega

/-- C5 (amended): whenever `WriteCFB` completes (the workbook occupies at
most 126 sectors), its output starts with the CFB signature and has length
exactly `512 * (data_sectors + 3)` — hence at least 5632 bytes and a
multiple of 512.  For larger workbooks `WriteCFB` panics and produces no
complete output. -/
theorem C5_cfb_output (wb : List Nat) (out : List Nat)
    (h : writeCFB wb = some out) :
    out.take 8 = [0xD0, 0xCF, 0x11, 0xE0, 0xA1, 0xB1, 0x1A, 0xE1] ∧
    out.length = 512 * (dataSectorsOf wb + 3) ∧
    5632 ≤ out.length ∧
    out.length % 512 = 0 := by
  unfold writeCFB at h
  cases hm : makeFat (dataSectorsOf wb) with
  | none => rw [hm] at h; cases h
  | some fat =>
      rw [hm] at h
      simp only [Option.map_some'] at h
      have hfl : fat.length = 128 := makeFat_length hm
      have hout : out = cfbHeader (dataSectorsOf wb) (dataSectorsOf wb + 1) ++
          ((wb ++ List.replicate (dataSectorsOf wb * 512 - wb.length) 0) ++
          (fat.foldr (fun v acc => u32le v ++ acc) [] ++
          dirSectorBytes (max wb.length 4096))) := by
        rw [← Option.some_inj.mp h]
        simp [List.append_assoc]
      have hlen : out.length = 512 * (dataSectorsOf wb + 3) := by
        rw [hout]
        simp only [List.length_append, cfbHeader_length, List.length_replicate,
          u32flat_length, dirSectorBytes_length, hfl]
        have := length_le_sectors wb
        omega
      refine ⟨?_, hlen, ?_, ?_⟩
      · rw [hout]
        rfl
      · have := dataSectorsOf_ge wb
        omega
      · omega

theorem C5_cfb_output_witness :
    writeCFB [] = some ((writeCFB []).getD []) ∧
    ((writeCFB []).getD []).length = 512 * (dataSectorsOf [] + 3) := by
  have h := writeCFB_eq [] (by decide)
  refine ⟨by rw [h]; rfl, ?_⟩
  exact (C5_cfb_output [] _ (by rw [h]; rfl)).2.1

/-- C5 counterexample: a 65536-byte workbook (128 data sectors) makes the
FAT store `fat[128]` index out of range — `WriteCFB` panics and there is
no total output of the claimed length. -/
theorem C5_cfb_output_cex :
    dataSectorsOf (List.replicate 65536 0) = 128 ∧
    makeFat 128 = none ∧
    writeCFB (List.replicate 65536 0) = none := by
  have h1 : dataSectorsOf (List.replicate 65536 0) = 128 := by
    rw [dataSectorsOf, List.length_replicate]
    omega
  have h2 : makeFat 128 = none := by
    unfold makeFat
    rw [fat_loop_spec 128 128 (by omega), Option.some_bind]
    rw [show setAt (loopFat 128 128) 128 cfbFATSector = none from by
      unfold setAt
      rw [if_neg (by rw [loopFat_length]; omega)]]
    rfl
  refine ⟨h1, h2, ?_⟩
  rw [writeCFB, h1, h2]
  exact Option.map_none' _

theorem range'_getD (n : Nat) :
    ∀ (s i d : Nat), i < n → (List.range' s n).getD i d = s + i := by
  induction n with
  | zero => intro s i d h; omega
  | succ n ih =>
      intro s i d h
      rw [List.range'_succ]
      cases i with
      | zero =>
          rw [List.getD_cons_zero]
          omega
      | succ i =>
          rw [List.getD_cons_succ, ih (s + 1) i d (by omega)]
          omega

theorem getD_map_lt (f : Nat → Nat) :
    ∀ (l : List Nat) (i d : Nat), i < l.length →
      (l.map f).getD i d = f (l.getD i 0) := by
  intro l
  induction l with
  | nil => intro i d h; simp at h
  | cons a l ih =>
      intro i d h
      cases i with
      | zero => rfl
      | succ i =>
          rw [List.map_cons, List.getD_cons_succ, List.getD_cons_succ]
          exact ih i d (by simpa using Nat.lt_of_succ_lt_succ h)

theorem cell_prefix_fields (T r c : Nat) (rest : List Nat) :
    decodeU16 (writeRecord T (u16le r ++ u16le c ++ rest)) 4 = r % 65536 ∧
    decodeU16 (writeRecord T (u16le r ++ u16le c ++ rest)) 6 = c % 65536 := by
  rw [show writeRecord T (u16le r ++ u16le c ++ rest) =
      (T % 256) :: (T / 256 % 256) ::
      ((u16le r ++ u16le c ++ rest).length % 256) ::
      ((u16le r ++ u16le c ++ rest).length / 256 % 256) ::
      ((r % 256) :: (r / 256 % 256) :: (u16le c ++ rest)) from by
    simp [writeRecord, u16le]]
  constructor
  · rw [show (4 : Nat) = 0 + 4 from rfl, decodeU16_cons4]
    have := decodeU16_u16le r (u16le c ++ rest)
    simpa [u16le] using this
  · rw [show (6 : Nat) = 2 + 4 from rfl, decodeU16_cons4]
    rw [show (2 : Nat) = 0 + 1 + 1 from rfl]
    simp only [decodeU16, List.getD_cons_succ]
    have := decodeU16_u16le c rest
    simp only [decodeU16] at this
    simpa using this

theorem writeDimensions_rowcount_field (data : Table) :
    decodeU32 (writeDimensions data) 8 = data.length % 4294967296 := by
  rw [show writeDimensions data =
      (0x0200 % 256) :: (0x0200 / 256 % 256) ::
      ((u32le 0 ++ u32le data.length ++ u16le 0 ++ u16le (maxCols data) ++
        u16le 0).length % 256) ::
      ((u32le 0 ++ u32le data.length ++ u16le 0 ++ u16le (maxCols data) ++
        u16le 0).length / 256 % 256) ::
      (0 :: 0 :: 0 :: 0 ::
        (u32le data.length ++ (u16le 0 ++ u16le (maxCols data) ++ u16le 0)))
      from by
    simp [writeDimensions, writeRecord, u16le, u32le]]
  rw [show (8 : Nat) = 0 + 4 + 4 from rfl, decodeU32_cons4, decodeU32_cons4]
  exact decodeU32_u32le _ _

/-- C10: ROW records store the row index reduced mod 2^16 (stream-level:
the sequence of ROW-record row fields is the truncated index sequence);
cell records store row and column mod 2^16; DIMENSIONS stores the full
row count as a 32-bit value; so with 65536 or more rows the per-row and
per-cell indices wrap while the DIMENSIONS count does not. -/
theorem C10_row_truncation :
    (∀ (data : Table) (sst : SharedStringTable),
      rowFieldsOf (writeRowsAndCells data sst) =
        some ((List.range' 0 data.length).map (· % 65536))) ∧
    (∀ (r c : Nat) (v : CellValue) (sst : SharedStringTable),
      decodeU16 (writeCell r c v sst) 4 = r % 65536 ∧
      decodeU16 (writeCell r c v sst) 6 = c % 65536) ∧
    (∀ data : Table,
      decodeU32 (writeDimensions data) 8 = data.length % 4294967296) ∧
    (∀ data : Table, 65536 < data.length → data.length < 4294967296 →
      decodeU32 (writeDimensions data) 8 = data.length ∧
      ((List.range' 0 data.length).map (· % 65536)).getD 65536 1 = 0 ∧
      (List.range' 0 data.length).getD 65536 1 = 65536) := by
  refine ⟨writeRowsAndCells_rowFields, ?_, writeDimensions_rowcount_field, ?_⟩
  · intro r c v sst
    cases v with
    | str s => exact cell_prefix_fields _ _ _ _
    | num bits => exact cell_prefix_fields _ _ _ _
    | boolean b => exact cell_prefix_fields _ _ _ _
    | other s => exact cell_prefix_fields _ _ _ _
  · intro data h1 h2
    refine ⟨?_, ?_, ?_⟩
    · rw [writeDimensions_rowcount_field, Nat.mod_eq_of_lt h2]
    · rw [getD_map_lt _ _ _ _ (by rw [List.length_range']; omega),
        range'_getD _ _ _ _ (by omega)]
    · rw [range'_getD _ _ _ _ (by omega)]

theorem C10_row_truncation_witness :
    65536 < (List.replicate 65537 ([] : Row)).length ∧
    (List.replicate 65537 ([] : Row)).length < 4294967296 ∧
    (decodeU32 (writeDimensions (List.replicate 65537 ([] : Row))) 8 =
        (List.replicate 65537 ([] : Row)).length ∧
      ((List.range' 0 (List.replicate 65537 ([] : Row)).length).map
          (· % 65536)).getD 65536 1 = 0 ∧
      (List.range' 0 (List.replicate 65537 ([] : Row)).length).getD 65536 1 =
        65536) := by
  have h1 : (List.replicate 65537 ([] : Row)).length = 65537 :=
    List.length_replicate _ _
  exact ⟨by rw [h1]; omega, by rw [h1]; omega,
    C10_row_truncation.2.2.2 _ (by rw [h1]; omega) (by rw [h1]; omega)⟩

/-- C1 (amended): `writeBIFF8` places the worksheet BOF exactly at
`worksheetOffset` (globals length + SST bytes + BOUNDSHEET record length
+ 4 for the globals EOF), and the BOUNDSHEET record — located right after
the SST bytes — carries that offset reduced mod 2^32 in its 32-bit field;
the field equals the byte position itself whenever it is below 2^32. -/
theorem C1_boundsheet_offset (data : Table) (name : String) :
    (writeBIFF8 data name).drop (worksheetOffset data name) =
      worksheetBytes data (buildSST data) ∧
    (worksheetBytes data (buildSST data)).take 20 = writeBOF 0x0010 ∧
    ((writeBIFF8 data name).drop
        (workbookGlobals.length + (writeSST (buildSST data)).length)).take
        (12 + (stringToUTF16LE name).length) =
      writeBoundSheet (worksheetOffset data name) name ∧
    decodeU32 (writeBoundSheet (worksheetOffset data name) name) 4 =
      worksheetOffset data name % 4294967296 ∧
    (worksheetOffset data name < 4294967296 →
      decodeU32 (writeBoundSheet (worksheetOffset data name) name) 4 =
        worksheetOffset data name) :=
  ⟨writeBIFF8_drop data name, worksheetBytes_take_BOF data (buildSST data),
    writeBIFF8_boundsheet_at data name,
    writeBoundSheet_offset_field _ name,
    fun h => by rw [writeBoundSheet_offset_field, Nat.mod_eq_of_lt h]⟩

set_option maxRecDepth 40000 in
theorem C1_boundsheet_offset_witness :
    worksheetOffset [] "Sheet1" < 4294967296 ∧
    decodeU32 (writeBoundSheet (worksheetOffset [] "Sheet1") "Sheet1") 4 =
      worksheetOffset [] "Sheet1" :=
  ⟨by decide, (C1_boundsheet_offset [] "Sheet1").2.2.2.2 (by decide)⟩

/-- A single text cell holding 2^31 copies of "a" — its SST encoding alone
is 2^32 + 3 bytes long. -/
def hugeTable : Table :=
  [[CellValue.str (String.mk (List.replicate 2147483648 (Char.ofNat 97)))]]

theorem utf16Encode_replicate (c : Char) :
    ∀ n : Nat, (utf16Encode (String.mk (List.replicate n c))).length =
      n * (utf16CodeUnits c).length := by
  intro n
  induction n with
  | zero => simp [utf16Encode]
  | succ n ih =>
      rw [List.replicate_succ, utf16Encode_cons, List.length_append, ih]
      ring

/-- C1 counterexample: on `hugeTable` the worksheet BOF sits at a byte
position of at least 2^32, and the stored 32-bit BOUNDSHEET offset field
differs from it (the `uint32` cast truncates). -/
theorem C1_boundsheet_offset_cex :
    4294967296 ≤ worksheetOffset hugeTable "Sheet1" ∧
    decodeU32 (writeBoundSheet (worksheetOffset hugeTable "Sheet1") "Sheet1") 4 ≠
      worksheetOffset hugeTable "Sheet1" ∧
    (writeBIFF8 hugeTable "Sheet1").drop (worksheetOffset hugeTable "Sheet1") =
      worksheetBytes hugeTable (buildSST hugeTable) := by
  have hstrings : (buildSST hugeTable).strings =
      [String.mk (List.replicate 2147483648 (Char.ofNat 97))] := rfl
  have henc : (encodeStringForSST
      (String.mk (List.replicate 2147483648 (Char.ofNat 97)))).length =
      3 + 2 * 2147483648 := by
    rw [encodeStringForSST, List.length_append, List.length_append,
      u16le_length, utf16Encode_replicate, List.length_cons, List.length_nil]
    rw [show (utf16CodeUnits (Char.ofNat 97)).length = 2 from rfl]
  have hwsst : (writeSST (buildSST hugeTable)).length = 15 + 2 * 2147483648 := by
    rw [writeSST, writeRecord_length, List.length_append, List.length_append,
      u32le_length, u32le_length, hstrings]
    rw [List.foldr_cons, List.foldr_nil, List.append_nil, henc]
  have hbig : 4294967296 ≤ worksheetOffset hugeTable "Sheet1" := by
    rw [worksheetOffset, hwsst]
    omega
  refine ⟨hbig, ?_, writeBIFF8_drop hugeTable "Sheet1"⟩
  rw [writeBoundSheet_offset_field]
  omega

set_option maxRecDepth 100000 in
/-- C8: the empty table encodes without error (buffer writes in Go cannot
fail and no string is transcoded; the model is total and the stream is
exactly record-framed); the worksheet's DIMENSIONS record is all zero
(last-row 0, last-col 0), no ROW and no cell record (LABELSST, NUMBER,
BOOLERR) occurs, and the SST record carries total_count 0 and
unique_count 0. -/
theorem C8_empty_table :
    (parseRecords (writeBIFF8 [] "Sheet1")).isSome = true ∧
    (parseRecords (worksheetBytes [] (buildSST []))).isSome = true ∧
    ((parseRecords (worksheetBytes [] (buildSST []))).getD []).filter
        (fun r => r.1 == 0x0200) =
      [(0x0200, u32le 0 ++ u32le 0 ++ u16le 0 ++ u16le 0 ++ u16le 0)] ∧
    (((parseRecords (worksheetBytes [] (buildSST []))).getD []).all
        (fun r => !(r.1 == 0x0208) && !(r.1 == 0x00FD) && !(r.1 == 0x0203) &&
          !(r.1 == 0x0205))) = true ∧
    writeSST (buildSST []) = writeRecord 0x00FC (u32le 0 ++ u32le 0) ∧
    (buildSST []).totalCount = 0 ∧
    (buildSST []).uniqueCount = 0 := by
  refine ⟨by decide, by decide, by decide, by decide, by decide, rfl, rfl⟩
